import Mathlib

/-!
  Shallow embedding of the CodeSync reminder engine (src/server.js).

  Timestamps are rational numbers of milliseconds since the epoch,
  matching the JavaScript Date arithmetic of the source. The tick
  operation `checkAndSendReminders` is modelled as a pure function of
  the current instant, the fetched contest list, a store-availability
  flag (true means every store call succeeds, false means the first
  store call throws, which the source catches), and the database state;
  it returns the new state together with the list of delivery attempts
  made during the tick.
-/

/-- Contest in the shape produced by `fetchContests` (server.js lines 59 to 112). -/
structure Contest where
  platform : String
  name : String
  startTime : ℚ
  duration : ℚ
  url : String
deriving DecidableEq

/-- Subscriber document (server.js lines 627 to 632): `phone` is `none` when the
stored value is null, `preferences` is the stored array of channel strings. -/
structure Subscriber where
  email : String
  phone : Option String
  preferences : List String
deriving DecidableEq

/-- Document of the `sentReminders` collection (server.js lines 227 and 253). -/
structure ReminderRecord where
  reminderId : String
  sentAt : ℚ
  contest : Contest
deriving DecidableEq

/-- Delivery channel of one send attempt. -/
inductive Channel where
  | email : Channel
  | sms : Channel
deriving DecidableEq

/-- One invocation of `sendEmail` or `sendSMS` during a tick, tagged with the
contest url, platform and reminder kind of the batch it belongs to. -/
structure Send where
  channel : Channel
  recipient : String
  contestUrl : String
  contestPlatform : String
  kind : String
deriving DecidableEq

/-- The three MongoDB collections the tick reads and writes. -/
structure DBState where
  contests : List Contest
  subscribers : List Subscriber
  sentReminders : List ReminderRecord
deriving DecidableEq

/-- Function getReminderId (server.js lines 166 to 168): the ledger key is built
from the contest url and the reminder type only. -/
def getReminderId (contestUrl reminderType : String) : String :=
  contestUrl ++ "-" ++ reminderType

/-- The hoursUntilStart computation (server.js line 207). -/
def hoursUntil (now : ℚ) (c : Contest) : ℚ :=
  (c.startTime - now) / (1000 * 3600)

/-- The 24-hour window predicate (server.js line 210). -/
def farWindow (h : ℚ) : Prop :=
  18 < h ∧ h ≤ 27

instance (h : ℚ) : Decidable (farWindow h) :=
  inferInstanceAs (Decidable (18 < h ∧ h ≤ 27))

/-- The 1-hour window predicate (server.js line 234); the source literal 0.1 is
the rational 1/10. -/
def nearWindow (h : ℚ) : Prop :=
  1 / 10 < h ∧ h ≤ 6

instance (h : ℚ) : Decidable (nearWindow h) :=
  inferInstanceAs (Decidable (1 / 10 < h ∧ h ≤ 6))

/-- JavaScript truthiness of `subscriber.phone` (server.js lines 222 and 248). -/
def hasPhone (s : Subscriber) : Bool :=
  match s.phone with
  | some p => p != ""
  | none => false

/-- The deliveries attempted for one subscriber inside one batch
(server.js lines 218 to 225 and 244 to 251): an email when the preferences
contain the string email, an SMS when they contain sms and a phone is on file. -/
def sendsForSub (c : Contest) (kind : String) (s : Subscriber) : List Send :=
  (if s.preferences.contains "email" then
    [{ channel := Channel.email, recipient := s.email, contestUrl := c.url,
       contestPlatform := c.platform, kind := kind }]
   else []) ++
  (if s.preferences.contains "sms" && hasPhone s then
    [{ channel := Channel.sms, recipient := s.phone.getD "", contestUrl := c.url,
       contestPlatform := c.platform, kind := kind }]
   else [])

/-- The findOne lookup by reminderId on the ledger (server.js lines 213 and 237). -/
def ledgerHas (ledger : List ReminderRecord) (rid : String) : Bool :=
  ledger.any (fun r => r.reminderId == rid)

/-- One window check for one contest (server.js lines 210 to 231 and 234 to 257):
if the ledger already holds the key, nothing happens; otherwise the batch fans
out to every subscriber and the key is inserted. -/
def processKind (now : ℚ) (subs : List Subscriber) (kind : String)
    (acc : List ReminderRecord × List Send) (c : Contest) :
    List ReminderRecord × List Send :=
  let rid := getReminderId c.url kind
  if ledgerHas acc.1 rid then acc
  else (acc.1 ++ [{ reminderId := rid, sentAt := now, contest := c }],
        acc.2 ++ subs.flatMap (sendsForSub c kind))

/-- The body of the per-contest loop (server.js lines 206 to 263): the far
window check, then the near window check, then the ledger cleanup guarded by
`hoursUntilStart < -1 && contest.url`. -/
def processContest (now : ℚ) (subs : List Subscriber)
    (acc : List ReminderRecord × List Send) (c : Contest) :
    List ReminderRecord × List Send :=
  let h := hoursUntil now c
  let acc1 := if farWindow h then processKind now subs "24hr" acc c else acc
  let acc2 := if nearWindow h then processKind now subs "1hr" acc1 c else acc1
  if h < -1 ∧ c.url ≠ "" then
    (acc2.1.filter (fun r => r.contest.url != c.url), acc2.2)
  else acc2

/-- Mongo `updateOne` with upsert on the key `{ url, platform }`
(server.js lines 185 to 193): replace the first matching entry, append otherwise. -/
def upsertOne (c : Contest) : List Contest → List Contest
  | [] => [c]
  | d :: ds =>
    if d.url == c.url && d.platform == c.platform then c :: ds
    else d :: upsertOne c ds

/-- The `bulkWrite` of every fetched contest (server.js lines 185 to 193). -/
def upsertAll (cs : List Contest) (store : List Contest) : List Contest :=
  cs.foldl (fun s c => upsertOne c s) store

/-- The deleteMany call removing contests that started more than an hour before
now (server.js line 182). -/
def expireContests (now : ℚ) (store : List Contest) : List Contest :=
  store.filter (fun c => !(c.startTime < now - 3600 * 1000))

/-- The result of one tick: the new database state and the delivery attempts. -/
structure TickResult where
  state : DBState
  sends : List Send
deriving DecidableEq

/-- The body of `checkAndSendReminders` inside its try block (server.js
lines 173 to 263). When `storeOk` is false the first store call throws.
After the contest merge, an empty subscriber list short-circuits the tick
(lines 198 to 201). -/
def tickBody (now : ℚ) (fetched : List Contest) (storeOk : Bool) (st : DBState) :
    Except String TickResult :=
  if !storeOk then Except.error "store unavailable"
  else
    let contestStore := upsertAll fetched (expireContests now st.contests)
    if st.subscribers.isEmpty then
      Except.ok { state := { st with contests := contestStore }, sends := [] }
    else
      let res := fetched.foldl (processContest now st.subscribers) (st.sentReminders, [])
      Except.ok { state := { contests := contestStore, subscribers := st.subscribers,
                             sentReminders := res.1 },
                  sends := res.2 }

/-- Function checkAndSendReminders (server.js lines 170 to 267): the whole body sits in
a try block whose catch only logs, so the function always returns normally; on
a store failure the state is left as it was and nothing was sent. -/
def checkAndSendReminders (now : ℚ) (fetched : List Contest) (storeOk : Bool)
    (st : DBState) : TickResult :=
  match tickBody now fetched storeOk st with
  | Except.ok r => r
  | Except.error _ => { state := st, sends := [] }

/-- The authenticated trigger endpoint (server.js lines 699 to 714): a bearer
token mismatch yields 401; otherwise the tick runs and, because
`checkAndSendReminders` never throws, the handler answers 200 with success. -/
def apiCheckReminders (authHeader cronSecret : String) (now : ℚ)
    (fetched : List Contest) (storeOk : Bool) (st : DBState) :
    Nat × Bool × DBState :=
  if authHeader = "Bearer " ++ cronSecret then
    let r := checkAndSendReminders now fetched storeOk st
    (200, true, r.state)
  else (401, false, st)

/-- A sequence of external trigger invocations: each entry carries the instant
of the tick and the contest list fetched during it; the resulting state is
threaded from tick to tick and the send lists are collected per tick. -/
def runTicks : List (ℚ × List Contest) → DBState → DBState × List (List Send)
  | [], st => (st, [])
  | (now, fetched) :: rest, st =>
    let r := checkAndSendReminders now fetched true st
    let rr := runTicks rest r.state
    (rr.1, r.sends :: rr.2)

/-- Whether a send list holds a delivery for the given contest url and
reminder kind: the observable trace of a batch for that ledger key. -/
def mentionsKey (u k : String) (sends : List Send) : Bool :=
  sends.any (fun snd => snd.contestUrl == u && snd.kind == k)

/-- Codeforces contest record as read from the API (server.js lines 55 to 66). -/
structure CFContest where
  id : Nat
  name : String
  phase : String
  startTimeSeconds : ℚ
  durationSeconds : ℚ
deriving DecidableEq

/-- Codeforces response body. -/
structure CFResponse where
  status : String
  result : List CFContest
deriving DecidableEq

/-- CodeChef contest record (server.js lines 73 to 82); the two iso dates are
modelled as the instants they parse to, in milliseconds. -/
structure CCContest where
  contest_name : String
  contest_start_date_iso : ℚ
  contest_end_date_iso : ℚ
  contest_code : String
deriving DecidableEq

/-- CodeChef response body: `future_contests` may be absent. -/
structure CCResponse where
  future_contests : Option (List CCContest)
deriving DecidableEq

/-- LeetCode contest record (server.js lines 89 to 113); `startTime` in seconds. -/
structure LCContest where
  title : String
  titleSlug : String
  startTime : ℚ
  duration : ℚ
deriving DecidableEq

/-- LeetCode response body: the `allContests` field of the graphql data. -/
structure LCResponse where
  allContests : Option (List LCContest)
deriving DecidableEq

/-- The Codeforces branch of `fetchContests` (server.js lines 54 to 70): a
failed request contributes nothing, a non OK status contributes nothing,
otherwise the BEFORE phase contests are normalized. -/
def cfContests (r : Except String CFResponse) : List Contest :=
  match r with
  | Except.error _ => []
  | Except.ok resp =>
    if resp.status == "OK" then
      (resp.result.filter (fun c => c.phase == "BEFORE")).map (fun c =>
        { platform := "Codeforces", name := c.name,
          startTime := c.startTimeSeconds * 1000,
          duration := c.durationSeconds / 3600,
          url := "https://codeforces.com/contest/" ++ toString c.id })
    else []

/-- The CodeChef branch of `fetchContests` (server.js lines 72 to 86). -/
def ccContests (r : Except String CCResponse) : List Contest :=
  match r with
  | Except.error _ => []
  | Except.ok resp =>
    match resp.future_contests with
    | none => []
    | some l => l.map (fun c =>
        { platform := "CodeChef", name := c.contest_name,
          startTime := c.contest_start_date_iso,
          duration := (c.contest_end_date_iso - c.contest_start_date_iso) / (1000 * 3600),
          url := "https://www.codechef.com/" ++ c.contest_code })

/-- The LeetCode branch of `fetchContests` (server.js lines 88 to 117):
only contests starting after the current instant (in seconds) are kept. -/
def lcContests (nowSec : ℚ) (r : Except String LCResponse) : List Contest :=
  match r with
  | Except.error _ => []
  | Except.ok resp =>
    match resp.allContests with
    | none => []
    | some l => (l.filter (fun c => nowSec < c.startTime)).map (fun c =>
        { platform := "LeetCode", name := c.title,
          startTime := c.startTime * 1000,
          duration := c.duration / 3600,
          url := "https://leetcode.com/contest/" ++ c.titleSlug })

/-- The comparator of the final sort (server.js line 121). -/
def startLe (a b : Contest) : Bool :=
  a.startTime ≤ b.startTime

/-- Function fetchContests (server.js lines 51 to 123): push the three platform
results independently, then sort ascending by start instant. Each platform
request is given as an `Except` value, error meaning the request threw. -/
def fetchContests (cfR : Except String CFResponse) (ccR : Except String CCResponse)
    (lcR : Except String LCResponse) (nowSec : ℚ) : List Contest :=
  (cfContests cfR ++ ccContests ccR ++ lcContests nowSec lcR).mergeSort startLe

/-! ## Concrete fixtures used by witnesses and counterexamples -/

/-- A contest starting 20 hours after the epoch. -/
def cw : Contest :=
  { platform := "Codeforces", name := "Div 2 Round 900", startTime := 72000000,
    duration := 2, url := "https://codeforces.com/contest/1" }

/-- An email only subscriber. -/
def subW : Subscriber :=
  { email := "alice@example.com", phone := none, preferences := ["email"] }

/-- A database holding only that subscriber. -/
def stW : DBState :=
  { contests := [], subscribers := [subW], sentReminders := [] }

/-- A Codeforces contest with url u, 20 hours away at instant zero. -/
def cA : Contest :=
  { platform := "Codeforces", name := "A", startTime := 72000000, duration := 2,
    url := "u" }

/-- A CodeChef contest with the same url u and the same start instant. -/
def cB : Contest :=
  { platform := "CodeChef", name := "B", startTime := 72000000, duration := 2,
    url := "u" }

/-- An sms only subscriber with no phone. -/
def subB : Subscriber :=
  { email := "bob@example.com", phone := none, preferences := ["sms"] }

/-- A database holding only that inert subscriber. -/
def stB : DBState :=
  { contests := [], subscribers := [subB], sentReminders := [] }

/-- A contest starting 3 hours after the epoch, inside the near window. -/
def cN : Contest :=
  { platform := "LeetCode", name := "Weekly", startTime := 10800000, duration := 2,
    url := "https://leetcode.com/contest/weekly" }

/-- A contest that started two hours before instant zero. -/
def cOld : Contest :=
  { platform := "Codeforces", name := "Old", startTime := -7200000, duration := 2,
    url := "u" }

/-- A ledger record referencing the old fixture by url. -/
def recOld : ReminderRecord :=
  { reminderId := "u-24hr", sentAt := 0, contest := cOld }

/-- A database with no subscribers whose ledger holds that record. -/
def stC6 : DBState :=
  { contests := [], subscribers := [], sentReminders := [recOld] }

/-! ## Basic facts about the windows and the ledger -/

/-- Unfolding of the ledger lookup. -/
theorem ledgerHas_iff (ledger : List ReminderRecord) (rid : String) :
    ledgerHas ledger rid = true ↔ ∃ r ∈ ledger, r.reminderId = rid := by
  simp [ledgerHas]

/-- The far window and the near window exclude each other. -/
theorem farWindow_nearWindow_disjoint (h : ℚ) (hf : farWindow h) : ¬ nearWindow h := by
  rcases hf with ⟨h18, _⟩
  rintro ⟨_, h6⟩
  linarith

/-- A contest inside the far window is not cleanup eligible. -/
theorem farWindow_not_expired (h : ℚ) (hf : farWindow h) : ¬ h < -1 := by
  rcases hf with ⟨h18, _⟩
  linarith

/-- A contest inside the near window is not cleanup eligible. -/
theorem nearWindow_not_expired (h : ℚ) (hf : nearWindow h) : ¬ h < -1 := by
  rcases hf with ⟨h01, _⟩
  linarith

/-- One tenth is below three: an arithmetic fact used to place concrete
inputs inside the near window. -/
theorem tenth_lt_three : (1 / 10 : ℚ) < 3 := by norm_num

/-- C5: the far window is the half open interval from 18 exclusive to 27
inclusive and the near window from one tenth exclusive to 6 inclusive:
18 is excluded, 27 included, one tenth excluded, 6 included, and everything
strictly between the bounds is included. -/
theorem c5_window_boundaries :
    (¬ farWindow 18) ∧ farWindow 27 ∧ (¬ nearWindow (1 / 10)) ∧ nearWindow 6 ∧
    (∀ h : ℚ, 18 < h → h < 27 → farWindow h) ∧
    (∀ h : ℚ, 1 / 10 < h → h < 6 → nearWindow h) := by
  refine ⟨?_, ?_, ?_, ?_, ?_, ?_⟩
  · simp [farWindow]
  · constructor <;> norm_num
  · simp [nearWindow]
  · constructor <;> norm_num
  · intro h h1 h2
    exact ⟨h1, le_of_lt h2⟩
  · intro h h1 h2
    exact ⟨h1, le_of_lt h2⟩

/-- Witness for C5 at the concrete interior points 20 and 3. -/
theorem c5_window_boundaries_witness : farWindow 20 ∧ nearWindow 3 :=
  ⟨c5_window_boundaries.2.2.2.2.1 20 (by decide) (by decide),
   c5_window_boundaries.2.2.2.2.2 3 tenth_lt_three (by decide)⟩

/-- C3 counterexample: with valid authentication and a failing store the
trigger endpoint still answers status 200 with success true, not a failure
status. -/
theorem c3_counterexample :
    (apiCheckReminders ("Bearer " ++ "s") "s" 0 [] false ⟨[], [], []⟩).1 = 200 ∧
    (apiCheckReminders ("Bearer " ++ "s") "s" 0 [] false ⟨[], [], []⟩).2.1 = true := by
  constructor <;> rfl

/-- C3 amended: when a store operation fails the tick body aborts with an
error, but `checkAndSendReminders` catches it, so the authenticated trigger
endpoint reports success with status 200 and the state is unchanged. -/
theorem c3_store_failure_swallowed (secret : String) (now : ℚ)
    (fetched : List Contest) (st : DBState) :
    tickBody now fetched false st = Except.error "store unavailable" ∧
    apiCheckReminders ("Bearer " ++ secret) secret now fetched false st = (200, true, st) := by
  constructor
  · rfl
  · simp [apiCheckReminders, checkAndSendReminders, tickBody]

/-- C9: with an empty subscriber store the tick sends nothing and leaves the
reminder ledger untouched, while the contest store merge and expiry still
happen: the tick is a short circuit, not an error. -/
theorem c9_empty_subscribers_noop (now : ℚ) (fetched : List Contest) (st : DBState)
    (h : st.subscribers = []) :
    (checkAndSendReminders now fetched true st).sends = [] ∧
    (checkAndSendReminders now fetched true st).state.sentReminders = st.sentReminders ∧
    (checkAndSendReminders now fetched true st).state.contests
      = upsertAll fetched (expireContests now st.contests) := by
  simp [checkAndSendReminders, tickBody, h]

/-- Witness for C9 on a concrete empty database. -/
theorem c9_empty_subscribers_noop_witness :
    (checkAndSendReminders 0 [] true ⟨[], [], []⟩).sends = [] ∧
    (checkAndSendReminders 0 [] true ⟨[], [], []⟩).state.sentReminders = [] ∧
    (checkAndSendReminders 0 [] true ⟨[], [], []⟩).state.contests
      = upsertAll [] (expireContests 0 []) :=
  c9_empty_subscribers_noop 0 [] ⟨[], [], []⟩ rfl

/-! ## Monotonicity and establishment for the per contest loop -/

/-- The near window excludes the far window. -/
theorem nearWindow_not_far (h : ℚ) (hn : nearWindow h) : ¬ farWindow h := by
  rcases hn with ⟨_, h6⟩
  rintro ⟨h18, _⟩
  linarith

/-- Ledger membership is preserved along any list inclusion. -/
theorem ledgerHas_mono {L1 L2 : List ReminderRecord} (rid : String)
    (hsub : ∀ r ∈ L1, r ∈ L2) (h : ledgerHas L1 rid = true) :
    ledgerHas L2 rid = true := by
  rw [ledgerHas_iff] at h ⊢
  obtain ⟨r, hr, hrid⟩ := h
  exact ⟨r, hsub r hr, hrid⟩

/-- A window check only appends to the ledger. -/
theorem processKind_fst_subset (now : ℚ) (subs : List Subscriber) (kind : String)
    (acc : List ReminderRecord × List Send) (c : Contest) :
    ∀ r ∈ acc.1, r ∈ (processKind now subs kind acc c).1 := by
  intro r hr
  simp only [processKind]
  split
  · exact hr
  · exact List.mem_append_left _ hr

/-- After a window check the ledger holds the key of that contest and kind. -/
theorem processKind_establishes (now : ℚ) (subs : List Subscriber) (kind : String)
    (acc : List ReminderRecord × List Send) (c : Contest) :
    ledgerHas (processKind now subs kind acc c).1 (getReminderId c.url kind) = true := by
  simp only [processKind]
  split
  · next hhas => exact hhas
  · rw [ledgerHas_iff]
    exact ⟨_, List.mem_append_right _ (List.mem_singleton_self _), rfl⟩

/-- A window check whose key is already recorded does nothing. -/
theorem processKind_of_has {now : ℚ} {subs : List Subscriber} {kind : String}
    {acc : List ReminderRecord × List Send} {c : Contest}
    (h : ledgerHas acc.1 (getReminderId c.url kind) = true) :
    processKind now subs kind acc c = acc := by
  simp [processKind, h]

/-- A contest whose pending window keys are all recorded and which is not
cleanup eligible leaves the accumulator untouched. -/
theorem processContest_of_has {now : ℚ} {subs : List Subscriber}
    {acc : List ReminderRecord × List Send} {c : Contest}
    (hfar : farWindow (hoursUntil now c) →
      ledgerHas acc.1 (getReminderId c.url "24hr") = true)
    (hnear : nearWindow (hoursUntil now c) →
      ledgerHas acc.1 (getReminderId c.url "1hr") = true)
    (hexp : ¬ hoursUntil now c < -1) :
    processContest now subs acc c = acc := by
  simp only [processContest]
  have h1 : (if farWindow (hoursUntil now c) then processKind now subs "24hr" acc c
      else acc) = acc := by
    split
    · next hf => exact processKind_of_has (hfar hf)
    · rfl
  rw [h1]
  have h2 : (if nearWindow (hoursUntil now c) then processKind now subs "1hr" acc c
      else acc) = acc := by
    split
    · next hn => exact processKind_of_has (hnear hn)
    · rfl
  rw [h2]
  rw [if_neg (fun hc => hexp hc.1)]

/-- A non cleanup eligible contest only appends to the ledger. -/
theorem processContest_fst_subset (now : ℚ) (subs : List Subscriber)
    (acc : List ReminderRecord × List Send) (c : Contest)
    (hexp : ¬ hoursUntil now c < -1) :
    ∀ r ∈ acc.1, r ∈ (processContest now subs acc c).1 := by
  intro r hr
  simp only [processContest]
  rw [if_neg (fun hc => hexp hc.1)]
  set acc1 := if farWindow (hoursUntil now c) then processKind now subs "24hr" acc c else acc
    with hacc1
  have hr1 : r ∈ acc1.1 := by
    rw [hacc1]
    split
    · exact processKind_fst_subset now subs "24hr" acc c r hr
    · exact hr
  split
  · exact processKind_fst_subset now subs "1hr" acc1 c r hr1
  · exact hr1

/-- Folding the loop over contests that are not cleanup eligible only appends
to the ledger. -/
theorem foldl_processContest_fst_subset (now : ℚ) (subs : List Subscriber)
    (l : List Contest) (hall : ∀ c ∈ l, ¬ hoursUntil now c < -1) :
    ∀ (acc : List ReminderRecord × List Send),
      ∀ r ∈ acc.1, r ∈ (l.foldl (processContest now subs) acc).1 := by
  induction l with
  | nil => intro acc r hr; exact hr
  | cons c cs ih =>
    intro acc r hr
    rw [List.foldl_cons]
    exact ih (fun d hd => hall d (List.mem_cons_of_mem _ hd)) _ _
      (processContest_fst_subset now subs acc c (hall c (List.mem_cons_self _ _)) r hr)

/-- Processing a contest inside the far window records the 24hr key. -/
theorem processContest_establishes_far (now : ℚ) (subs : List Subscriber)
    (acc : List ReminderRecord × List Send) (c : Contest)
    (hf : farWindow (hoursUntil now c)) :
    ledgerHas (processContest now subs acc c).1 (getReminderId c.url "24hr") = true := by
  simp only [processContest]
  rw [if_pos hf, if_neg (farWindow_nearWindow_disjoint _ hf),
    if_neg (fun hc => farWindow_not_expired _ hf hc.1)]
  exact processKind_establishes now subs "24hr" acc c

/-- Processing a contest inside the near window records the 1hr key. -/
theorem processContest_establishes_near (now : ℚ) (subs : List Subscriber)
    (acc : List ReminderRecord × List Send) (c : Contest)
    (hn : nearWindow (hoursUntil now c)) :
    ledgerHas (processContest now subs acc c).1 (getReminderId c.url "1hr") = true := by
  simp only [processContest]
  rw [if_neg (nearWindow_not_far _ hn), if_pos hn,
    if_neg (fun hc => nearWindow_not_expired _ hn hc.1)]
  exact processKind_establishes now subs "1hr" acc c

/-- After folding the loop, every contest of the list that sits in the far
window has its 24hr key in the ledger, provided no contest of the list is
cleanup eligible. -/
theorem foldl_establishes_far (now : ℚ) (subs : List Subscriber)
    (l : List Contest) (c : Contest)
    (hall : ∀ d ∈ l, ¬ hoursUntil now d < -1) (hc : c ∈ l)
    (hf : farWindow (hoursUntil now c)) :
    ∀ (acc : List ReminderRecord × List Send),
      ledgerHas (l.foldl (processContest now subs) acc).1
        (getReminderId c.url "24hr") = true := by
  induction l with
  | nil => cases hc
  | cons d ds ih =>
    intro acc
    rw [List.foldl_cons]
    have hds : ∀ e ∈ ds, ¬ hoursUntil now e < -1 :=
      fun e he => hall e (List.mem_cons_of_mem _ he)
    rcases List.mem_cons.mp hc with rfl | hmem
    · exact ledgerHas_mono _
        (foldl_processContest_fst_subset now subs ds hds _)
        (processContest_establishes_far now subs acc c hf)
    · exact ih hds hmem _

/-- After folding the loop, every contest of the list that sits in the near
window has its 1hr key in the ledger, provided no contest of the list is
cleanup eligible. -/
theorem foldl_establishes_near (now : ℚ) (subs : List Subscriber)
    (l : List Contest) (c : Contest)
    (hall : ∀ d ∈ l, ¬ hoursUntil now d < -1) (hc : c ∈ l)
    (hn : nearWindow (hoursUntil now c)) :
    ∀ (acc : List ReminderRecord × List Send),
      ledgerHas (l.foldl (processContest now subs) acc).1
        (getReminderId c.url "1hr") = true := by
  induction l with
  | nil => cases hc
  | cons d ds ih =>
    intro acc
    rw [List.foldl_cons]
    have hds : ∀ e ∈ ds, ¬ hoursUntil now e < -1 :=
      fun e he => hall e (List.mem_cons_of_mem _ he)
    rcases List.mem_cons.mp hc with rfl | hmem
    · exact ledgerHas_mono _
        (foldl_processContest_fst_subset now subs ds hds _)
        (processContest_establishes_near now subs acc c hn)
    · exact ih hds hmem _

/-- Folding the loop over contests whose pending keys are all recorded and
which are not cleanup eligible leaves the accumulator untouched. -/
theorem foldl_processContest_noop (now : ℚ) (subs : List Subscriber)
    (l : List Contest) (acc : List ReminderRecord × List Send)
    (hall : ∀ c ∈ l,
      (farWindow (hoursUntil now c) →
        ledgerHas acc.1 (getReminderId c.url "24hr") = true) ∧
      (nearWindow (hoursUntil now c) →
        ledgerHas acc.1 (getReminderId c.url "1hr") = true) ∧
      ¬ hoursUntil now c < -1) :
    l.foldl (processContest now subs) acc = acc := by
  induction l with
  | nil => rfl
  | cons c cs ih =>
    have hc := hall c (List.mem_cons_self _ _)
    rw [List.foldl_cons, processContest_of_has hc.1 hc.2.1 hc.2.2]
    exact ih (fun d hd => hall d (List.mem_cons_of_mem _ hd))

/-! ## Idempotence of the immediate re-run -/

/-- Re-running the tick immediately after a successful tick, with no time
elapsed and the same fetched contest list and subscribers, produces zero
additional email or SMS sends; the hypothesis states that the fetched list
holds no contest that ended more than an hour ago, which is what the fetch
filters of the source guarantee. -/
theorem c1_tick_idempotent (now : ℚ) (fetched : List Contest) (st : DBState)
    (hfresh : ∀ c ∈ fetched, ¬ hoursUntil now c < -1) :
    (checkAndSendReminders now fetched true
        (checkAndSendReminders now fetched true st).state).sends = [] := by
  by_cases hs : st.subscribers.isEmpty
  · simp [checkAndSendReminders, tickBody, hs]
  · have hstate : (checkAndSendReminders now fetched true st).state.subscribers
        = st.subscribers := by
      simp [checkAndSendReminders, tickBody, hs]
    have hledger : (checkAndSendReminders now fetched true st).state.sentReminders
        = (fetched.foldl (processContest now st.subscribers)
            (st.sentReminders, [])).1 := by
      simp [checkAndSendReminders, tickBody, hs]
    simp only [checkAndSendReminders, tickBody, Bool.not_true, Bool.false_eq_true,
      if_false, hstate, hs, if_neg]
    rw [foldl_processContest_noop now st.subscribers fetched
      ((List.foldl (processContest now st.subscribers) (st.sentReminders, []) fetched).1, [])
      (fun c hc =>
        ⟨fun hf => foldl_establishes_far now st.subscribers fetched c hfresh hc hf _,
         fun hn => foldl_establishes_near now st.subscribers fetched c hfresh hc hn _,
         hfresh c hc⟩)]

/-- The fixture contest is 20 hours away at instant zero. -/
theorem hoursUntil_cw : hoursUntil 0 cw = 20 := by
  norm_num [hoursUntil, cw]

/-! ## C4: ledger keys ignore the platform -/

/-- C4 amended: the ledger key is built from the url and the reminder kind
only, so after a contest fires the far reminder, any contest with the same
url and inside the far window, whatever its platform, is suppressed: its
loop step adds no sends. -/
theorem c4_shared_url_suppresses (now : ℚ) (subs : List Subscriber)
    (acc : List ReminderRecord × List Send) (c d : Contest)
    (hurl : c.url = d.url)
    (hc : farWindow (hoursUntil now c)) (hd : farWindow (hoursUntil now d)) :
    (processContest now subs (processContest now subs acc c) d).2 =
      (processContest now subs acc c).2 := by
  have hkey : ledgerHas (processContest now subs acc c).1
      (getReminderId d.url "24hr") = true := by
    rw [← hurl]
    exact processContest_establishes_far now subs acc c hc
  rw [processContest_of_has (fun _ => hkey)
    (fun hn => absurd hd (nearWindow_not_far _ hn))
    (farWindow_not_expired _ hd)]

/-- The first fixture is 20 hours away at instant zero. -/
theorem hoursUntil_cA : hoursUntil 0 cA = 20 := by
  norm_num [hoursUntil, cA]

/-- The second fixture is 20 hours away at instant zero. -/
theorem hoursUntil_cB : hoursUntil 0 cB = 20 := by
  norm_num [hoursUntil, cB]

/-- Witness for C4 amended on the concrete shared url fixtures. -/
theorem c4_shared_url_suppresses_witness :
    (processContest 0 [subW] (processContest 0 [subW] ([], []) cA) cB).2 =
      (processContest 0 [subW] ([], []) cA).2 :=
  c4_shared_url_suppresses 0 [subW] ([], []) cA cB rfl
    (by rw [hoursUntil_cA]; decide) (by rw [hoursUntil_cB]; decide)

/-- Evaluation of the loop body on the first shared url fixture: one email
is sent and the key u-24hr is recorded. -/
theorem processContest_cA :
    processContest 0 [subW] ([], []) cA =
      ([{ reminderId := "u-24hr", sentAt := 0, contest := cA }],
       [{ channel := Channel.email, recipient := "alice@example.com", contestUrl := "u",
          contestPlatform := "Codeforces", kind := "24hr" }]) := by
  simp only [processContest]
  rw [hoursUntil_cA, if_pos (by decide : farWindow 20),
    if_neg (farWindow_nearWindow_disjoint 20 (by decide)),
    if_neg (by decide : ¬ ((20 : ℚ) < -1 ∧ cA.url ≠ ""))]
  decide

/-- Evaluation of the loop body on the second shared url fixture: the key
u-24hr is already recorded, so nothing is added even though the platform
differs. -/
theorem processContest_cB :
    processContest 0 [subW]
      ([{ reminderId := "u-24hr", sentAt := 0, contest := cA }],
       [{ channel := Channel.email, recipient := "alice@example.com", contestUrl := "u",
          contestPlatform := "Codeforces", kind := "24hr" }]) cB =
      ([{ reminderId := "u-24hr", sentAt := 0, contest := cA }],
       [{ channel := Channel.email, recipient := "alice@example.com", contestUrl := "u",
          contestPlatform := "Codeforces", kind := "24hr" }]) := by
  apply processContest_of_has
  · intro _
    decide
  · intro hn
    exact absurd hn (by rw [hoursUntil_cB]; exact farWindow_nearWindow_disjoint 20 (by decide))
  · rw [hoursUntil_cB]
    decide

/-- C4 counterexample: two contests that differ only in platform and share a
url, both 20 hours away, with one email subscriber: the tick sends a single
email, for the Codeforces one; the CodeChef one is suppressed by the shared
ledger key, so the records are not independent. -/
theorem c4_counterexample :
    cA.url = cB.url ∧ cA.platform ≠ cB.platform ∧
    (checkAndSendReminders 0 [cA, cB] true stW).sends =
      [{ channel := Channel.email, recipient := "alice@example.com", contestUrl := "u",
         contestPlatform := "Codeforces", kind := "24hr" }] := by
  refine ⟨rfl, by decide, ?_⟩
  have hfold : [cA, cB].foldl (processContest 0 [subW]) ([], []) =
      ([{ reminderId := "u-24hr", sentAt := 0, contest := cA }],
       [{ channel := Channel.email, recipient := "alice@example.com", contestUrl := "u",
          contestPlatform := "Codeforces", kind := "24hr" }]) := by
    rw [List.foldl_cons, processContest_cA, List.foldl_cons, processContest_cB,
      List.foldl_nil]
  simp [checkAndSendReminders, tickBody, stW, hfold]

/-! ## C8: a subscriber with only the sms channel and no phone is inert -/

/-- A flat map over functions that all give the empty list is empty. -/
theorem flatMap_eq_nil_of {α β : Type} (l : List α) (f : α → List β)
    (h : ∀ a ∈ l, f a = []) : l.flatMap f = [] := by
  induction l with
  | nil => rfl
  | cons a as ih =>
    rw [List.flatMap_cons, h a (List.mem_cons_self _ _), List.nil_append]
    exact ih (fun b hb => h b (List.mem_cons_of_mem _ hb))

/-- A subscriber without the email channel and without a phone on file gets
no deliveries in any batch. -/
theorem sendsForSub_no_channels {s : Subscriber} (c : Contest) (kind : String)
    (hpe : s.preferences.contains "email" = false) (hph : hasPhone s = false) :
    sendsForSub c kind s = [] := by
  rw [sendsForSub, hpe, hph]
  simp

/-- A window check over inert subscribers adds no sends. -/
theorem processKind_sends_inert {now : ℚ} {subs : List Subscriber} {kind : String}
    {acc : List ReminderRecord × List Send} {c : Contest}
    (h : ∀ s ∈ subs, ∀ (d : Contest) (k : String), sendsForSub d k s = []) :
    (processKind now subs kind acc c).2 = acc.2 := by
  simp only [processKind]
  split
  · rfl
  · rw [flatMap_eq_nil_of subs _ (fun s hs => h s hs c kind), List.append_nil]

/-- The loop body over inert subscribers adds no sends. -/
theorem processContest_sends_inert {now : ℚ} {subs : List Subscriber}
    {acc : List ReminderRecord × List Send} {c : Contest}
    (h : ∀ s ∈ subs, ∀ (d : Contest) (k : String), sendsForSub d k s = []) :
    (processContest now subs acc c).2 = acc.2 := by
  simp only [processContest]
  set acc1 := if farWindow (hoursUntil now c) then processKind now subs "24hr" acc c
    else acc with hacc1
  have h1 : acc1.2 = acc.2 := by
    rw [hacc1]
    split
    · exact processKind_sends_inert h
    · rfl
  set acc2 := if nearWindow (hoursUntil now c) then processKind now subs "1hr" acc1 c
    else acc1 with hacc2
  have h2 : acc2.2 = acc.2 := by
    rw [hacc2]
    split
    · rw [processKind_sends_inert h]; exact h1
    · exact h1
  split
  · exact h2
  · exact h2

/-- Folding the loop over inert subscribers produces no sends. -/
theorem foldl_sends_inert {now : ℚ} {subs : List Subscriber}
    (l : List Contest) (acc : List ReminderRecord × List Send)
    (h : ∀ s ∈ subs, ∀ (d : Contest) (k : String), sendsForSub d k s = []) :
    (l.foldl (processContest now subs) acc).2 = acc.2 := by
  induction l generalizing acc with
  | nil => rfl
  | cons c cs ih =>
    rw [List.foldl_cons]
    rw [ih (processContest now subs acc c)]
    exact processContest_sends_inert h

/-- C8: a subscriber whose channel set is exactly sms and who has no phone on
file generates zero deliveries per batch, and a tick run against a subscriber
store made only of such subscribers sends nothing, whatever the contest list. -/
theorem c8_sms_only_without_phone_inert :
    (∀ (c : Contest) (kind : String) (s : Subscriber), s.preferences = ["sms"] →
      s.phone = none → sendsForSub c kind s = []) ∧
    (∀ (now : ℚ) (fetched : List Contest) (st : DBState),
      (∀ s ∈ st.subscribers, s.preferences = ["sms"] ∧ s.phone = none) →
      (checkAndSendReminders now fetched true st).sends = []) := by
  have base : ∀ (c : Contest) (kind : String) (s : Subscriber), s.preferences = ["sms"] →
      s.phone = none → sendsForSub c kind s = [] := by
    intro c kind s hp hph
    refine sendsForSub_no_channels c kind ?_ ?_
    · rw [hp]; decide
    · rw [hasPhone, hph]
  refine ⟨base, ?_⟩
  intro now fetched st hsubs
  by_cases hs : st.subscribers.isEmpty
  · simp [checkAndSendReminders, tickBody, hs]
  · simp only [checkAndSendReminders, tickBody, Bool.not_true, Bool.false_eq_true,
      if_false, hs]
    exact foldl_sends_inert fetched (st.sentReminders, [])
      (fun s hsx d k => base d k s (hsubs s hsx).1 (hsubs s hsx).2)

/-- Witness for C8 on the concrete inert subscriber, against a contest that is
well inside the far window. -/
theorem c8_sms_only_without_phone_inert_witness :
    sendsForSub cw "24hr" subB = [] ∧
    (checkAndSendReminders 0 [cw] true stB).sends = [] :=
  ⟨c8_sms_only_without_phone_inert.1 cw "24hr" subB rfl rfl,
   c8_sms_only_without_phone_inert.2 0 [cw] stB (by
    intro s hsx
    rw [stB] at hsx
    simp only [List.mem_singleton] at hsx
    subst hsx
    exact ⟨rfl, rfl⟩)⟩

/-! ## C10: a consumed window never fires again -/

/-- Every delivery of a batch is tagged with the url of its contest and the
kind of its window. -/
theorem sendsForSub_tags (c : Contest) (kind : String) (s : Subscriber) :
    ∀ snd ∈ sendsForSub c kind s, snd.contestUrl = c.url ∧ snd.kind = kind := by
  intro snd hmem
  rcases List.mem_append.mp hmem with h1 | h1 <;>
  · split at h1
    · rw [List.mem_singleton] at h1
      subst h1
      exact ⟨rfl, rfl⟩
    · cases h1

/-- A window check whose key is already in the ledger for some url and kind
adds no send carrying that url and kind. -/
theorem processKind_sends_no_fire {now : ℚ} {subs : List Subscriber} {kind : String}
    {acc : List ReminderRecord × List Send} {c : Contest} {u k : String}
    (hkey : ledgerHas acc.1 (getReminderId u k) = true)
    (hsends : ∀ snd ∈ acc.2, ¬ (snd.contestUrl = u ∧ snd.kind = k)) :
    ∀ snd ∈ (processKind now subs kind acc c).2,
      ¬ (snd.contestUrl = u ∧ snd.kind = k) := by
  intro snd hmem
  simp only [processKind] at hmem
  split at hmem
  · exact hsends snd hmem
  · next hcond =>
    rcases List.mem_append.mp hmem with h1 | h1
    · exact hsends snd h1
    · rintro ⟨hu, hk⟩
      obtain ⟨s, _, hin⟩ := List.mem_flatMap.mp h1
      obtain ⟨htu, htk⟩ := sendsForSub_tags c kind s snd hin
      rw [htu] at hu
      rw [htk] at hk
      rw [hu, hk] at hcond
      exact hcond hkey

/-- One loop step over a non cleanup eligible contest neither erases a
recorded key nor emits a send carrying the url and kind of a recorded key. -/
theorem processContest_no_fire {now : ℚ} {subs : List Subscriber}
    {acc : List ReminderRecord × List Send} {c : Contest} {u k : String}
    (hexp : ¬ hoursUntil now c < -1)
    (hkey : ledgerHas acc.1 (getReminderId u k) = true)
    (hsends : ∀ snd ∈ acc.2, ¬ (snd.contestUrl = u ∧ snd.kind = k)) :
    ledgerHas (processContest now subs acc c).1 (getReminderId u k) = true ∧
    ∀ snd ∈ (processContest now subs acc c).2,
      ¬ (snd.contestUrl = u ∧ snd.kind = k) := by
  refine ⟨ledgerHas_mono _ (processContest_fst_subset now subs acc c hexp) hkey, ?_⟩
  simp only [processContest]
  rw [if_neg (fun hc => hexp hc.1)]
  set acc1 := if farWindow (hoursUntil now c) then processKind now subs "24hr" acc c
    else acc with hacc1
  have hkey1 : ledgerHas acc1.1 (getReminderId u k) = true := by
    rw [hacc1]
    split
    · exact ledgerHas_mono _ (processKind_fst_subset now subs "24hr" acc c) hkey
    · exact hkey
  have hsends1 : ∀ snd ∈ acc1.2, ¬ (snd.contestUrl = u ∧ snd.kind = k) := by
    rw [hacc1]
    split
    · exact processKind_sends_no_fire hkey hsends
    · exact hsends
  split
  · exact processKind_sends_no_fire hkey1 hsends1
  · exact hsends1

/-- Folding the loop over non cleanup eligible contests never emits a send
carrying the url and kind of a key already in the ledger. -/
theorem foldl_no_fire {now : ℚ} {subs : List Subscriber} {u k : String}
    (l : List Contest) :
    ∀ (acc : List ReminderRecord × List Send),
      (∀ c ∈ l, ¬ hoursUntil now c < -1) →
      ledgerHas acc.1 (getReminderId u k) = true →
      (∀ snd ∈ acc.2, ¬ (snd.contestUrl = u ∧ snd.kind = k)) →
      ∀ snd ∈ (l.foldl (processContest now subs) acc).2,
        ¬ (snd.contestUrl = u ∧ snd.kind = k) := by
  induction l with
  | nil =>
    intro acc _ _ hsends
    exact hsends
  | cons c cs ih =>
    intro acc hall hkey hsends
    rw [List.foldl_cons]
    obtain ⟨hkey2, hsends2⟩ :=
      @processContest_no_fire now subs acc c u k
        (hall c (List.mem_cons_self _ _)) hkey hsends
    exact ih _ (fun d hd => hall d (List.mem_cons_of_mem _ hd)) hkey2 hsends2

/-- C10: when a contest matches either reminder window, with kind 24hr for the
far window and 1hr for the near window, and its key is not yet in the ledger,
a tick whose subscribers all lack the email channel and a phone sends nothing
yet records the key, and any later tick started from the resulting ledger,
with any subscribers and any fetched list free of cleanup eligible contests,
emits no send for that contest url and that kind. -/
theorem c10_window_consumed_without_receivers (now : ℚ) (fetched : List Contest)
    (st : DBState) (c : Contest) (k : String)
    (hc : c ∈ fetched)
    (hwin : (k = "24hr" ∧ farWindow (hoursUntil now c)) ∨
      (k = "1hr" ∧ nearWindow (hoursUntil now c)))
    (hfresh : ∀ d ∈ fetched, ¬ hoursUntil now d < -1)
    (hne : ¬ st.subscribers.isEmpty)
    (hinert : ∀ s ∈ st.subscribers, s.preferences.contains "email" = false ∧
      hasPhone s = false) :
    (checkAndSendReminders now fetched true st).sends = [] ∧
    ledgerHas (checkAndSendReminders now fetched true st).state.sentReminders
      (getReminderId c.url k) = true ∧
    ∀ (subs2 : List Subscriber) (now2 : ℚ) (fetched2 : List Contest),
      (∀ d ∈ fetched2, ¬ hoursUntil now2 d < -1) →
      ∀ snd ∈ (checkAndSendReminders now2 fetched2 true
          { contests := (checkAndSendReminders now fetched true st).state.contests,
            subscribers := subs2,
            sentReminders :=
              (checkAndSendReminders now fetched true st).state.sentReminders }).sends,
        ¬ (snd.contestUrl = c.url ∧ snd.kind = k) := by
  have hbatch : ∀ s ∈ st.subscribers, ∀ (d : Contest) (k2 : String),
      sendsForSub d k2 s = [] :=
    fun s hs d k2 => sendsForSub_no_channels d k2 (hinert s hs).1 (hinert s hs).2
  have hsends : (checkAndSendReminders now fetched true st).sends = [] := by
    simp only [checkAndSendReminders, tickBody, Bool.not_true, Bool.false_eq_true,
      if_false, hne]
    exact foldl_sends_inert fetched (st.sentReminders, []) hbatch
  have hledger : (checkAndSendReminders now fetched true st).state.sentReminders =
      (fetched.foldl (processContest now st.subscribers) (st.sentReminders, [])).1 := by
    simp [checkAndSendReminders, tickBody, hne]
  have hkey : ledgerHas (checkAndSendReminders now fetched true st).state.sentReminders
      (getReminderId c.url k) = true := by
    rw [hledger]
    rcases hwin with ⟨rfl, hf⟩ | ⟨rfl, hn⟩
    · exact foldl_establishes_far now st.subscribers fetched c hfresh hc hf _
    · exact foldl_establishes_near now st.subscribers fetched c hfresh hc hn _
  refine ⟨hsends, hkey, ?_⟩
  intro subs2 now2 fetched2 hfresh2 snd hmem
  by_cases hs2 : subs2.isEmpty
  · simp [checkAndSendReminders, tickBody, hs2] at hmem
  · simp only [checkAndSendReminders, tickBody, Bool.not_true, Bool.false_eq_true,
      if_false, hs2] at hmem
    exact foldl_no_fire fetched2 _ hfresh2 hkey (fun s hsx => by cases hsx) snd hmem

/-- The near window fixture is 3 hours away at instant zero. -/
theorem hoursUntil_cN : hoursUntil 0 cN = 3 := by
  norm_num [hoursUntil, cN]

/-- Witness for C10, exercising both window kinds: with the single sms only,
phoneless subscriber, a tick against the far window fixture and a tick against
the near window fixture each send nothing but consume their window key. -/
theorem c10_window_consumed_witness :
    ((checkAndSendReminders 0 [cw] true stB).sends = [] ∧
     ledgerHas (checkAndSendReminders 0 [cw] true stB).state.sentReminders
       (getReminderId cw.url "24hr") = true) ∧
    ((checkAndSendReminders 0 [cN] true stB).sends = [] ∧
     ledgerHas (checkAndSendReminders 0 [cN] true stB).state.sentReminders
       (getReminderId cN.url "1hr") = true) :=
  have hfar := c10_window_consumed_without_receivers 0 [cw] stB cw "24hr"
    (List.mem_singleton_self _)
    (Or.inl ⟨rfl, by rw [hoursUntil_cw]; decide⟩)
    (by intro d hd; rw [List.mem_singleton] at hd; subst hd; rw [hoursUntil_cw]; decide)
    (by decide)
    (by intro s hsx; rw [stB] at hsx; simp only [List.mem_singleton] at hsx;
        subst hsx; exact ⟨rfl, rfl⟩)
  have hnear := c10_window_consumed_without_receivers 0 [cN] stB cN "1hr"
    (List.mem_singleton_self _)
    (Or.inr ⟨rfl, by rw [hoursUntil_cN]; exact ⟨tenth_lt_three, by norm_num⟩⟩)
    (by intro d hd; rw [List.mem_singleton] at hd; subst hd; rw [hoursUntil_cN]; norm_num)
    (by decide)
    (by intro s hsx; rw [stB] at hsx; simp only [List.mem_singleton] at hsx;
        subst hsx; exact ⟨rfl, rfl⟩)
  ⟨⟨hfar.1, hfar.2.1⟩, ⟨hnear.1, hnear.2.1⟩⟩

/-! ## C1: at most one batch per contest and kind across a run of ticks -/

/-- Unfolding of the batch trace predicate. -/
theorem mentionsKey_iff (u k : String) (sends : List Send) :
    mentionsKey u k sends = true ↔
      ∃ snd ∈ sends, snd.contestUrl = u ∧ snd.kind = k := by
  simp [mentionsKey]

/-- A window check preserves the invariant that every send of the accumulator
tagged with a url and kind has that key in the ledger. -/
theorem processKind_key_invariant {now : ℚ} {subs : List Subscriber} {kind : String}
    {acc : List ReminderRecord × List Send} {c : Contest} {u k : String}
    (hinv : (∃ snd ∈ acc.2, snd.contestUrl = u ∧ snd.kind = k) →
      ledgerHas acc.1 (getReminderId u k) = true) :
    (∃ snd ∈ (processKind now subs kind acc c).2, snd.contestUrl = u ∧ snd.kind = k) →
    ledgerHas (processKind now subs kind acc c).1 (getReminderId u k) = true := by
  by_cases hcond : ledgerHas acc.1 (getReminderId c.url kind) = true
  · rw [processKind_of_has hcond]
    exact hinv
  · have hpk : processKind now subs kind acc c =
        (acc.1 ++ [{ reminderId := getReminderId c.url kind, sentAt := now, contest := c }],
         acc.2 ++ subs.flatMap (sendsForSub c kind)) := by
      simp only [processKind]
      rw [if_neg hcond]
    rw [hpk]
    rintro ⟨snd, hmem, htu, htk⟩
    rcases List.mem_append.mp hmem with h1 | h1
    · exact ledgerHas_mono _ (fun r hr => List.mem_append_left _ hr)
        (hinv ⟨snd, h1, htu, htk⟩)
    · obtain ⟨s, _, hin⟩ := List.mem_flatMap.mp h1
      obtain ⟨hcu, hck⟩ := sendsForSub_tags c kind s snd hin
      rw [ledgerHas_iff]
      refine ⟨_, List.mem_append_right _ (List.mem_singleton_self _), ?_⟩
      show getReminderId c.url kind = getReminderId u k
      rw [hcu.symm.trans htu, hck.symm.trans htk]

/-- The loop body preserves the send to key invariant for contests that are
not cleanup eligible. -/
theorem processContest_key_invariant {now : ℚ} {subs : List Subscriber}
    {acc : List ReminderRecord × List Send} {c : Contest} {u k : String}
    (hexp : ¬ hoursUntil now c < -1)
    (hinv : (∃ snd ∈ acc.2, snd.contestUrl = u ∧ snd.kind = k) →
      ledgerHas acc.1 (getReminderId u k) = true) :
    (∃ snd ∈ (processContest now subs acc c).2, snd.contestUrl = u ∧ snd.kind = k) →
    ledgerHas (processContest now subs acc c).1 (getReminderId u k) = true := by
  simp only [processContest]
  rw [if_neg (fun hh => hexp hh.1)]
  set acc1 := if farWindow (hoursUntil now c) then processKind now subs "24hr" acc c
    else acc with hacc1
  have hinv1 : (∃ snd ∈ acc1.2, snd.contestUrl = u ∧ snd.kind = k) →
      ledgerHas acc1.1 (getReminderId u k) = true := by
    rw [hacc1]
    split
    · exact processKind_key_invariant hinv
    · exact hinv
  split
  · exact processKind_key_invariant hinv1
  · exact hinv1

/-- Folding the loop over a fresh list preserves the send to key invariant. -/
theorem foldl_key_invariant {now : ℚ} {subs : List Subscriber} {u k : String}
    (l : List Contest) :
    ∀ (acc : List ReminderRecord × List Send),
      (∀ c ∈ l, ¬ hoursUntil now c < -1) →
      ((∃ snd ∈ acc.2, snd.contestUrl = u ∧ snd.kind = k) →
        ledgerHas acc.1 (getReminderId u k) = true) →
      (∃ snd ∈ (l.foldl (processContest now subs) acc).2,
        snd.contestUrl = u ∧ snd.kind = k) →
      ledgerHas (l.foldl (processContest now subs) acc).1 (getReminderId u k) = true := by
  induction l with
  | nil =>
    intro acc _ hinv
    exact hinv
  | cons c cs ih =>
    intro acc hall hinv
    rw [List.foldl_cons]
    exact ih _ (fun d hd => hall d (List.mem_cons_of_mem _ hd))
      (processContest_key_invariant (hall c (List.mem_cons_self _ _)) hinv)

/-- If a tick emits a send for a url and kind, the key is in the ledger the
tick leaves behind. -/
theorem tick_emits_key (now : ℚ) (fetched : List Contest) (st : DBState) (u k : String)
    (hfresh : ∀ c ∈ fetched, ¬ hoursUntil now c < -1)
    (hemit : ∃ snd ∈ (checkAndSendReminders now fetched true st).sends,
      snd.contestUrl = u ∧ snd.kind = k) :
    ledgerHas (checkAndSendReminders now fetched true st).state.sentReminders
      (getReminderId u k) = true := by
  by_cases hs : st.subscribers.isEmpty
  · simp [checkAndSendReminders, tickBody, hs] at hemit
  · have hsends : (checkAndSendReminders now fetched true st).sends =
        (fetched.foldl (processContest now st.subscribers) (st.sentReminders, [])).2 := by
      simp [checkAndSendReminders, tickBody, hs]
    have hled : (checkAndSendReminders now fetched true st).state.sentReminders =
        (fetched.foldl (processContest now st.subscribers) (st.sentReminders, [])).1 := by
      simp [checkAndSendReminders, tickBody, hs]
    rw [hled]
    rw [hsends] at hemit
    exact foldl_key_invariant fetched _ hfresh (by rintro ⟨snd, h, _⟩; cases h) hemit

/-- A tick whose starting ledger holds a key emits no send for it and keeps
the key, provided its fetched list holds no cleanup eligible contest. -/
theorem tick_no_fire (now : ℚ) (fetched : List Contest) (st : DBState) (u k : String)
    (hfresh : ∀ c ∈ fetched, ¬ hoursUntil now c < -1)
    (hkey : ledgerHas st.sentReminders (getReminderId u k) = true) :
    (∀ snd ∈ (checkAndSendReminders now fetched true st).sends,
      ¬ (snd.contestUrl = u ∧ snd.kind = k)) ∧
    ledgerHas (checkAndSendReminders now fetched true st).state.sentReminders
      (getReminderId u k) = true := by
  by_cases hs : st.subscribers.isEmpty
  · constructor
    · intro snd hmem
      simp [checkAndSendReminders, tickBody, hs] at hmem
    · simpa [checkAndSendReminders, tickBody, hs] using hkey
  · constructor
    · simp only [checkAndSendReminders, tickBody, Bool.not_true, Bool.false_eq_true,
        if_false, hs]
      exact foldl_no_fire fetched _ hfresh hkey
        (fun snd h => absurd h (List.not_mem_nil snd))
    · simp only [checkAndSendReminders, tickBody, Bool.not_true, Bool.false_eq_true,
        if_false, hs]
      exact ledgerHas_mono _
        (foldl_processContest_fst_subset now st.subscribers fetched hfresh _) hkey

/-- Once the ledger holds a key, a fresh run of ticks never again emits a
send for it: every per tick send list fails the batch trace predicate. -/
theorem runTicks_no_fire (u k : String) (ticks : List (ℚ × List Contest)) :
    ∀ (st : DBState),
      (∀ t ∈ ticks, ∀ c ∈ t.2, ¬ hoursUntil t.1 c < -1) →
      ledgerHas st.sentReminders (getReminderId u k) = true →
      (runTicks ticks st).2.countP (mentionsKey u k) = 0 := by
  induction ticks with
  | nil =>
    intro st _ _
    rfl
  | cons t rest ih =>
    intro st hfresh hkey
    obtain ⟨now, fetched⟩ := t
    have hstep := tick_no_fire now fetched st u k
      (hfresh (now, fetched) (List.mem_cons_self _ _)) hkey
    have hpred : mentionsKey u k (checkAndSendReminders now fetched true st).sends
        = false := by
      rw [← Bool.not_eq_true]
      intro habs
      obtain ⟨snd, hmem, htag⟩ := (mentionsKey_iff u k _).mp habs
      exact hstep.1 snd hmem htag
    show ((checkAndSendReminders now fetched true st).sends ::
        (runTicks rest (checkAndSendReminders now fetched true st).state).2).countP
        (mentionsKey u k) = 0
    rw [List.countP_cons, hpred]
    simp [ih _ (fun t2 ht2 => hfresh t2 (List.mem_cons_of_mem _ ht2)) hstep.2]

/-- Across any fresh run of ticks, at most one tick emits sends for a given
url and kind. -/
theorem runTicks_at_most_one (u k : String) (ticks : List (ℚ × List Contest)) :
    ∀ (st : DBState),
      (∀ t ∈ ticks, ∀ c ∈ t.2, ¬ hoursUntil t.1 c < -1) →
      (runTicks ticks st).2.countP (mentionsKey u k) ≤ 1 := by
  induction ticks with
  | nil =>
    intro st _
    simp [runTicks]
  | cons t rest ih =>
    intro st hfresh
    obtain ⟨now, fetched⟩ := t
    show ((checkAndSendReminders now fetched true st).sends ::
        (runTicks rest (checkAndSendReminders now fetched true st).state).2).countP
        (mentionsKey u k) ≤ 1
    rw [List.countP_cons]
    by_cases hemit : mentionsKey u k (checkAndSendReminders now fetched true st).sends
        = true
    · rw [if_pos hemit]
      have hkey := tick_emits_key now fetched st u k
        (hfresh (now, fetched) (List.mem_cons_self _ _))
        ((mentionsKey_iff u k _).mp hemit)
      rw [runTicks_no_fire u k rest _
        (fun t2 ht2 => hfresh t2 (List.mem_cons_of_mem _ ht2)) hkey]
    · rw [if_neg hemit]
      simpa using ih _ (fun t2 ht2 => hfresh t2 (List.mem_cons_of_mem _ ht2))

/-- C1: across any run of the tick, each invocation at its own instant with
its own fetched list free of contests that ended over an hour ago, at most
one tick ever emits deliveries for a given contest url and reminder kind, and
in particular re-running the tick immediately after a successful tick, with
no time elapsed and the same fetched contest list and subscribers, produces
zero additional email or SMS sends. -/
theorem c1_at_most_one_batch :
    (∀ (u k : String) (ticks : List (ℚ × List Contest)) (st : DBState),
      (∀ t ∈ ticks, ∀ c ∈ t.2, ¬ hoursUntil t.1 c < -1) →
      (runTicks ticks st).2.countP (mentionsKey u k) ≤ 1) ∧
    (∀ (now : ℚ) (fetched : List Contest) (st : DBState),
      (∀ c ∈ fetched, ¬ hoursUntil now c < -1) →
      (checkAndSendReminders now fetched true
        (checkAndSendReminders now fetched true st).state).sends = []) :=
  ⟨fun u k ticks st hfresh => runTicks_at_most_one u k ticks st hfresh,
   fun now fetched st hfresh => c1_tick_idempotent now fetched st hfresh⟩

/-- The far window fixture seen again five hours later. -/
theorem hoursUntil_cw_later : hoursUntil 18000000 cw = 15 := by
  norm_num [hoursUntil, cw]

/-- Witness for C1 on a concrete run of two ticks, the second five hours
later with the same contest refetched, plus the immediate re-run. -/
theorem c1_at_most_one_batch_witness :
    (runTicks [(0, [cw]), (18000000, [cw])] stW).2.countP
      (mentionsKey cw.url "24hr") ≤ 1 ∧
    (checkAndSendReminders 0 [cw] true
      (checkAndSendReminders 0 [cw] true stW).state).sends = [] :=
  ⟨c1_at_most_one_batch.1 cw.url "24hr" [(0, [cw]), (18000000, [cw])] stW (by
      intro t ht c hc
      rcases List.mem_cons.mp ht with rfl | ht2
      · rw [List.mem_singleton] at hc
        subst hc
        rw [hoursUntil_cw]
        decide
      · rw [List.mem_singleton] at ht2
        subst ht2
        rw [List.mem_singleton] at hc
        subst hc
        rw [hoursUntil_cw_later]
        decide),
   c1_at_most_one_batch.2 0 [cw] stW (by
      intro c hc
      rw [List.mem_singleton] at hc
      subst hc
      rw [hoursUntil_cw]
      decide)⟩

/-! ## C6: contest expiry and ledger cleanup -/

/-- An upsert only yields the upserted contest or previous entries. -/
theorem upsertOne_mem (c x : Contest) (s : List Contest)
    (h : x ∈ upsertOne c s) : x = c ∨ x ∈ s := by
  induction s with
  | nil =>
    rw [upsertOne, List.mem_singleton] at h
    exact Or.inl h
  | cons d ds ih =>
    rw [upsertOne] at h
    split at h
    · rcases List.mem_cons.mp h with h1 | h1
      · exact Or.inl h1
      · exact Or.inr (List.mem_cons_of_mem _ h1)
    · rcases List.mem_cons.mp h with h1 | h1
      · exact Or.inr (h1 ▸ List.mem_cons_self _ _)
      · rcases ih h1 with h2 | h2
        · exact Or.inl h2
        · exact Or.inr (List.mem_cons_of_mem _ h2)

/-- The bulk upsert only yields previous entries or fetched contests. -/
theorem upsertAll_mem (l : List Contest) :
    ∀ (s : List Contest) (x : Contest), x ∈ upsertAll l s → x ∈ s ∨ x ∈ l := by
  induction l with
  | nil =>
    intro s x h
    exact Or.inl h
  | cons c cs ih =>
    intro s x h
    rcases ih (upsertOne c s) x h with h1 | h1
    · rcases upsertOne_mem c x s h1 with h2 | h2
      · exact Or.inr (h2 ▸ List.mem_cons_self _ _)
      · exact Or.inl h2
    · exact Or.inr (List.mem_cons_of_mem _ h1)

/-- An expired instant is outside both windows. -/
theorem expired_not_far (h : ℚ) (hh : h < -1) : ¬ farWindow h := by
  rintro ⟨h18, _⟩
  linarith

/-- An expired instant is outside the near window too. -/
theorem expired_not_near (h : ℚ) (hh : h < -1) : ¬ nearWindow h := by
  rintro ⟨h01, _⟩
  linarith

/-- The contest store after any successful tick is the upsert of the fetched
list over the expiry filtered previous store. -/
theorem tick_contests_eq (now : ℚ) (fetched : List Contest) (st : DBState) :
    (checkAndSendReminders now fetched true st).state.contests =
      upsertAll fetched (expireContests now st.contests) := by
  by_cases hs : st.subscribers.isEmpty
  · simp [checkAndSendReminders, tickBody, hs]
  · simp [checkAndSendReminders, tickBody, hs]

/-- C6 amended: every tick deletes the contest store entries that started more
than an hour ago before upserting the fetched list, so such an entry survives
only if it was re-fetched; and the loop step of a contest with
hoursUntilStart below minus one and a non empty url leaves no ledger record
whose snapshot carries that url, in the ticks that reach the loop, which are
those with a non empty subscriber list. -/
theorem c6_expiry_and_cleanup :
    (∀ (now : ℚ) (fetched : List Contest) (st : DBState) (e : Contest),
      e ∈ st.contests → e.startTime < now - 3600 * 1000 → e ∉ fetched →
      e ∉ (checkAndSendReminders now fetched true st).state.contests) ∧
    (∀ (now : ℚ) (subs : List Subscriber)
      (acc : List ReminderRecord × List Send) (c : Contest),
      hoursUntil now c < -1 → c.url ≠ "" →
      ∀ r ∈ (processContest now subs acc c).1, r.contest.url ≠ c.url) := by
  constructor
  · intro now fetched st e _ hold hnotf hmem
    rw [tick_contests_eq] at hmem
    rcases upsertAll_mem fetched (expireContests now st.contests) e hmem with h1 | h1
    · rw [expireContests, List.mem_filter] at h1
      rw [Bool.not_eq_true' ] at h1
      exact absurd (of_decide_eq_false h1.2) (not_not_intro hold)
    · exact hnotf h1
  · intro now subs acc c hexp hurl r hr
    rw [processContest] at hr
    rw [if_neg (expired_not_far _ hexp), if_neg (expired_not_near _ hexp),
      if_pos ⟨hexp, hurl⟩] at hr
    rw [List.mem_filter] at hr
    simpa using hr.2

/-- The old fixture is minus two hours away at instant zero. -/
theorem hoursUntil_cOld : hoursUntil 0 cOld = -2 := by
  norm_num [hoursUntil, cOld]

/-- C6 counterexample: a tick whose subscriber store is empty never reaches
the cleanup loop, so the ledger record referencing a contest with
hoursUntilStart below minus one survives the tick in full, against the claim
that every tick deletes it. -/
theorem c6_counterexample :
    hoursUntil 0 cOld < -1 ∧ cOld.url ≠ "" ∧ recOld.contest.url = cOld.url ∧
    (checkAndSendReminders 0 [cOld] true stC6).state.sentReminders = [recOld] := by
  refine ⟨by rw [hoursUntil_cOld]; norm_num, by decide, rfl, ?_⟩
  simp [checkAndSendReminders, tickBody, stC6]

/-- The old fixture started more than an hour before instant zero. -/
theorem cOld_started_early : cOld.startTime < 0 - 3600 * 1000 := by
  norm_num [cOld]

/-- Witness for C6 amended: the expired store entry that is not re-fetched is
gone after a concrete tick. -/
theorem c6_expiry_and_cleanup_witness :
    cOld ∉ (checkAndSendReminders 0 [] true
      { contests := [cOld], subscribers := [], sentReminders := [] }).state.contests :=
  c6_expiry_and_cleanup.1 0 []
    { contests := [cOld], subscribers := [], sentReminders := [] } cOld
    (List.mem_singleton_self _) cOld_started_early (by simp)

/-! ## C7: the fetch never throws and returns a sorted concatenation -/

/-- The sort comparator is transitive. -/
theorem startLe_trans (a b c : Contest) (hab : startLe a b = true)
    (hbc : startLe b c = true) : startLe a c = true := by
  rw [startLe, decide_eq_true_eq] at hab hbc ⊢
  exact le_trans hab hbc

/-- The sort comparator is total. -/
theorem startLe_total (a b : Contest) : (startLe a b || startLe b a) = true := by
  rw [startLe, startLe, Bool.or_eq_true, decide_eq_true_eq, decide_eq_true_eq]
  exact le_total a.startTime b.startTime

/-- C7: the fetch is a total function of the three platform outcomes: its
result is sorted ascending by start instant, it is a permutation of the
concatenation of the three normalized per platform lists, and a platform
whose request failed contributes the empty list. -/
theorem c7_fetch_sorted_concat (cfR : Except String CFResponse)
    (ccR : Except String CCResponse) (lcR : Except String LCResponse) (nowSec : ℚ) :
    List.Sorted (fun a b : Contest => a.startTime ≤ b.startTime)
      (fetchContests cfR ccR lcR nowSec) ∧
    (fetchContests cfR ccR lcR nowSec).Perm
      (cfContests cfR ++ ccContests ccR ++ lcContests nowSec lcR) ∧
    (∀ e : String, cfContests (Except.error e) = [] ∧
      ccContests (Except.error e) = [] ∧ lcContests nowSec (Except.error e) = []) := by
  refine ⟨?_, ?_, fun e => ⟨rfl, rfl, rfl⟩⟩
  · have hp := @List.sorted_mergeSort Contest startLe startLe_trans startLe_total
      (cfContests cfR ++ ccContests ccR ++ lcContests nowSec lcR)
    rw [fetchContests]
    exact hp.imp (fun hab => by
      rw [startLe, decide_eq_true_eq] at hab
      exact hab)
  · rw [fetchContests]
    exact List.mergeSort_perm _ _
